import Mathlib

/-!
Verification of the Quill editor backend (`src/Quill/src-tauri/src/main.rs`).

The Rust program is embedded shallowly:

* `Settings` / `AppState` become Lean structures (`u32` as `Nat`,
  `Option<i32>` as `Option Int`, `Vec<String>` as `List String`).
* The filesystem is a map `String → Option (List Nat)` from a path to the
  bytes of the file stored there (`none` = the path does not exist).
* The parsed content of `settings.json` is a `Json` value; a missing,
  unreadable or textually unparsable file is `none`.
* Persistence (`save_settings`) is tracked in the model field
  `AppState.persisted`, holding the last settings record written to disk
  (the source write is best-effort; the model records the value handed to
  the write).
* Commands become pure functions from state (plus external inputs: dialog
  result, filesystem, write outcome) to state and a result value.
-/

/-- Embeds the Rust `Settings` struct (main.rs 18–36). -/
structure Settings where
  theme : String
  font_size : Nat
  word_wrap : Bool
  window_width : Nat
  window_height : Nat
  window_x : Option Int
  window_y : Option Int
  recent_files : List String
deriving DecidableEq, Repr

/-- Embeds `Settings::default()` (main.rs 44–57) built from the per-field
serde default functions `default_theme`, `default_font_size`, `default_true`,
`default_window_width`, `default_window_height` (main.rs 38–42). -/
def Settings.default : Settings :=
  { theme := "dark", font_size := 14, word_wrap := true,
    window_width := 1000, window_height := 700,
    window_x := none, window_y := none, recent_files := [] }

/-- `MAX_RECENT_FILES` (main.rs 13). -/
def MAX_RECENT_FILES : Nat := 10

/-- `MAX_FILE_SIZE` (main.rs 14): 10 MiB. -/
def MAX_FILE_SIZE : Nat := 10 * 1024 * 1024

/-- Shallow model of a parsed JSON document (`serde_json::Value`).  Numbers
are modelled as integers: every settings field is integral, and a fractional
number fails deserialization into any of them exactly as a non-numeric value
does, so the integral model loses nothing the claims need. -/
inductive Json where
  | null
  | bool (b : Bool)
  | num (n : Int)
  | str (s : String)
  | arr (elems : List Json)
  | obj (fields : List (String × Json))

/-- serde extraction of a `String` field carrying `#[serde(default)]`:
a missing key takes the default, a JSON string is taken verbatim, and any
other JSON value fails the whole struct deserialization. -/
def getStringField (fields : List (String × Json)) (k : String) (dflt : String) :
    Option String :=
  match fields.lookup k with
  | none => some dflt
  | some (.str s) => some s
  | some _ => none

/-- serde extraction of a `u32` field with a default: a present value must be
an integer in `[0, 2^32)`. -/
def getU32Field (fields : List (String × Json)) (k : String) (dflt : Nat) :
    Option Nat :=
  match fields.lookup k with
  | none => some dflt
  | some (.num n) => if 0 ≤ n ∧ n < 4294967296 then some n.toNat else none
  | some _ => none

/-- serde extraction of a `bool` field with a default. -/
def getBoolField (fields : List (String × Json)) (k : String) (dflt : Bool) :
    Option Bool :=
  match fields.lookup k with
  | none => some dflt
  | some (.bool b) => some b
  | some _ => none

/-- serde extraction of an `Option<i32>` field with `#[serde(default)]`:
missing or `null` is `None`; a present integer must fit in `i32`. -/
def getOptI32Field (fields : List (String × Json)) (k : String) :
    Option (Option Int) :=
  match fields.lookup k with
  | none => some none
  | some .null => some none
  | some (.num n) => if -2147483648 ≤ n ∧ n ≤ 2147483647 then some (some n) else none
  | some _ => none

/-- Elementwise extraction of a JSON array of strings (serde `Vec<String>`):
any non-string element fails. -/
def extractStrings : List Json → Option (List String)
  | [] => some []
  | .str s :: rest => (extractStrings rest).map (fun l => s :: l)
  | _ :: _ => none

/-- serde extraction of the `Vec<String>` field `recent_files` with
`#[serde(default)]` (missing key gives the empty list). -/
def getStringListField (fields : List (String × Json)) (k : String) :
    Option (List String) :=
  match fields.lookup k with
  | none => some []
  | some (.arr xs) => extractStrings xs
  | some _ => none

/-- Embeds `serde_json::from_str::<Settings>` applied to a parsed JSON
document: the derived `Deserialize` for `Settings` (main.rs 18–36).  A
non-object document fails; unknown keys are ignored; each known key is
extracted by its field deserializer, a present-but-invalid field failing the
whole deserialization. -/
def deserializeSettings (j : Json) : Option Settings :=
  match j with
  | .obj fields => do
    let theme ← getStringField fields "theme" "dark"
    let font_size ← getU32Field fields "font_size" 14
    let word_wrap ← getBoolField fields "word_wrap" true
    let window_width ← getU32Field fields "window_width" 1000
    let window_height ← getU32Field fields "window_height" 700
    let window_x ← getOptI32Field fields "window_x"
    let window_y ← getOptI32Field fields "window_y"
    let recent_files ← getStringListField fields "recent_files"
    some { theme := theme, font_size := font_size, word_wrap := word_wrap,
           window_width := window_width, window_height := window_height,
           window_x := window_x, window_y := window_y,
           recent_files := recent_files }
  | _ => none

/-- Embeds `load_settings` (main.rs 101–111).  The argument models the
on-disk `settings.json`: `none` when the file is missing, unreadable, or not
valid JSON text (all of which make the source fall through), `some j` when it
parses to the document `j`.  The source returns the deserialized record on
success and `Settings::default()` otherwise; it never raises (modelled by
totality). -/
def load_settings (file : Option Json) : Settings :=
  match file with
  | some j => (deserializeSettings j).getD Settings.default
  | none => Settings.default

/-- Embeds `add_recent_file_impl` (main.rs 141–145) at the list level:
`retain(|p| p != path)`, then `insert(0, path)`, then
`truncate(MAX_RECENT_FILES)`. -/
def add_recent_file_impl (recent : List String) (path : String) : List String :=
  (path :: recent.filter (fun p => p != path)).take MAX_RECENT_FILES

/-- `add_recent_file_impl` acting on the whole settings record, as the source
does through `&mut Settings`. -/
def add_recent_settings (s : Settings) (path : String) : Settings :=
  { s with recent_files := add_recent_file_impl s.recent_files path }

/-- One character step of UTF-8 validation/decoding (RFC 3629, as performed
by Rust `String::from_utf8`): `b` is the lead byte already removed from the
input, `rest` the remaining bytes, `go` the continuation decoding the bytes
after this character.  Shortest forms only (lead bytes `0xC0`/`0xC1` are
rejected, `0xE0`/`0xF0` restrict the second byte), surrogates are rejected
(lead `0xED` restricts the second byte), code points stop at `0x10FFFF`
(lead at most `0xF4`, with `0xF4` restricting the second byte). -/
def utf8DecodeGo (go : List Nat → Option (List Nat)) (b : Nat)
    (rest : List Nat) : Option (List Nat) :=
  if b < 128 then
    (go rest).map (fun cs => b :: cs)
  else if b < 194 then
    none
  else if b < 224 then
    match rest with
    | b1 :: rest2 =>
      if 128 ≤ b1 ∧ b1 < 192 then
        (go rest2).map (fun cs => ((b - 192) * 64 + (b1 - 128)) :: cs)
      else none
    | [] => none
  else if b < 240 then
    match rest with
    | b1 :: b2 :: rest3 =>
      if (if b = 224 then 160 ≤ b1 ∧ b1 < 192
          else if b = 237 then 128 ≤ b1 ∧ b1 < 160
          else 128 ≤ b1 ∧ b1 < 192) ∧ 128 ≤ b2 ∧ b2 < 192 then
        (go rest3).map
          (fun cs => ((b - 224) * 4096 + (b1 - 128) * 64 + (b2 - 128)) :: cs)
      else none
    | _ => none
  else if b < 245 then
    match rest with
    | b1 :: b2 :: b3 :: rest4 =>
      if (if b = 240 then 144 ≤ b1 ∧ b1 < 192
          else if b = 244 then 128 ≤ b1 ∧ b1 < 144
          else 128 ≤ b1 ∧ b1 < 192) ∧
          (128 ≤ b2 ∧ b2 < 192) ∧ (128 ≤ b3 ∧ b3 < 192) then
        (go rest4).map
          (fun cs => ((b - 240) * 262144 + (b1 - 128) * 4096 +
                      (b2 - 128) * 64 + (b3 - 128)) :: cs)
      else none
    | _ => none
  else none

/-- Fuel-driven driver for `utf8DecodeGo`.  Each step consumes at least one
byte, so fuel equal to the byte count never runs out; the fuel only makes the
recursion structural. -/
def utf8DecodeFuel : Nat → List Nat → Option (List Nat)
  | _, [] => some []
  | 0, _ :: _ => none
  | fuel + 1, b :: rest => utf8DecodeGo (utf8DecodeFuel fuel) b rest

/-- UTF-8 validation/decoding of a byte sequence into its sequence of
Unicode scalar values (`none` = the bytes are not valid UTF-8), the model of
Rust `String::from_utf8` used by `read_file`. -/
def utf8Decode (bytes : List Nat) : Option (List Nat) :=
  utf8DecodeFuel bytes.length bytes

/-- The UTF-8 encoding of one Unicode scalar value (used only to state what
"the UTF-8 decoding of the bytes" means: `utf8Decode` is its right inverse). -/
def utf8EncodeChar (c : Nat) : List Nat :=
  if c < 128 then [c]
  else if c < 2048 then [192 + c / 64, 128 + c % 64]
  else if c < 65536 then [224 + c / 4096, 128 + c / 64 % 64, 128 + c % 64]
  else [240 + c / 262144, 128 + c / 4096 % 64, 128 + c / 64 % 64, 128 + c % 64]

/-- The exact error string built at main.rs 155–158 for an oversized file:
`format!("File too large ({}MB). Maximum is 10MB.", meta.len() / 1024 / 1024)`. -/
def tooLargeMsg (len : Nat) : String :=
  "File too large (" ++ toString (len / 1024 / 1024) ++ "MB). Maximum is 10MB."

/-- Embeds `read_file` (main.rs 148–165).  The filesystem is a map from path
to file bytes (`none` = path does not exist); `meta.len()` is the byte count;
`String::from_utf8` is `utf8Decode`; the latin-1 fallback `b as char` maps
each byte to the code point of the same value (`Char.ofNat`). -/
def read_file (fs : String → Option (List Nat)) (path : String) :
    Except String String :=
  match fs path with
  | none => .error "File does not exist"
  | some bytes =>
    if MAX_FILE_SIZE < bytes.length then
      .error (tooLargeMsg bytes.length)
    else
      match utf8Decode bytes with
      | some cps => .ok (String.mk (cps.map (fun c => Char.ofNat c)))
      | none => .ok (String.mk (bytes.map (fun b => Char.ofNat b)))

/-- Whether `needle` occurs as a contiguous run inside `hay` (the semantics
of Rust `str::contains` with a literal pattern, main.rs 228). -/
def containsSeq (needle : List Char) : List Char → Bool
  | [] => needle.isEmpty
  | c :: rest => needle.isPrefixOf (c :: rest) || containsSeq needle rest

/-- Rust `e.contains("does not exist")` (main.rs 228). -/
def strContains (hay needle : String) : Bool :=
  containsSeq needle.toList hay.toList

/-- Splits a character sequence at `'/'` (the Unix path separator),
accumulating the current chunk in `acc`. -/
def splitSlashAux : List Char → List Char → List String
  | [], acc => [String.mk acc.reverse]
  | c :: rest, acc =>
    if c = '/' then String.mk acc.reverse :: splitSlashAux rest []
    else splitSlashAux rest (c :: acc)

/-- The chunks of a path between `'/'` separators. -/
def splitSlash (p : String) : List String :=
  splitSlashAux p.toList []

/-- Embeds `std::path::Path::file_name` for Unix-style paths (main.rs 128–130
and 325–327): the final path component, unless that component is `..` or the
path has no normal final component (root, `.`); empty chunks (trailing or
doubled separators) and `.` chunks are not components. -/
def pathFileName (p : String) : Option String :=
  match ((splitSlash p).filter (fun c => c != "" && c != ".")).getLast? with
  | none => none
  | some last => if last == ".." then none else some last

/-- The display name computed identically at main.rs 124–134 (`update_title`)
and main.rs 321–331 (`get_file_state`): base name of the current file, the
empty string when `file_name()` is `None` (via `unwrap_or_default`), and the
literal `"Untitled"` when no file is current. -/
def fileDisplayName (current : Option String) : String :=
  match current with
  | some p => (pathFileName p).getD ""
  | none => "Untitled"

/-- Embeds the Rust `AppState` (main.rs 61–67).  `config_dir` is dropped (a
single fixed directory); the extra field `persisted` models the settings
record most recently handed to `save_settings` for writing to
`settings.json`. -/
structure AppState where
  settings : Settings
  current_file : Option String
  modified : Bool
  startup_file : Option String
  persisted : Settings
deriving DecidableEq, Repr

/-- The JSON result values the commands return to the dispatcher. -/
inductive CmdResult where
  | okContent (content : String) (path : String)
  | okNew
  | okPath (path : Option String)
  | err (e : String)
  | cancelled
deriving DecidableEq, Repr

/-- Embeds `new_file` (main.rs 170–176). -/
def new_file (st : AppState) : AppState × CmdResult :=
  ({ st with current_file := none, modified := false }, .okNew)

/-- Embeds `open_file` (main.rs 179–208).  `picked` is the outcome of the
native file dialog (`none` = cancelled). -/
def open_file (fs : String → Option (List Nat)) (picked : Option String)
    (st : AppState) : AppState × CmdResult :=
  match picked with
  | none => (st, .cancelled)
  | some path =>
    match read_file fs path with
    | .ok content =>
      let settings' := add_recent_settings st.settings path
      ({ st with current_file := some path, modified := false,
                 settings := settings', persisted := settings' },
       .okContent content path)
    | .error e => (st, .err e)

/-- Embeds `open_recent_file` (main.rs 211–237). -/
def open_recent_file (fs : String → Option (List Nat)) (path : String)
    (st : AppState) : AppState × CmdResult :=
  match read_file fs path with
  | .ok content =>
    let settings' := add_recent_settings st.settings path
    ({ st with current_file := some path, modified := false,
               settings := settings', persisted := settings' },
     .okContent content path)
  | .error e =>
    if strContains e "does not exist" then
      let settings' :=
        { st.settings with
          recent_files := st.settings.recent_files.filter (fun p => p != path) }
      ({ st with settings := settings', persisted := settings' }, .err e)
    else
      (st, .err e)

/-- Embeds `save_to_path` (main.rs 279–298).  `writeErr` is the outcome of
`fs::write` (`none` = success, `some e` = the OS error string). -/
def save_to_path (writeErr : Option String) (path : String)
    (st : AppState) : AppState × CmdResult :=
  match writeErr with
  | none =>
    let settings' := add_recent_settings st.settings path
    ({ st with current_file := some path, modified := false,
               settings := settings', persisted := settings' },
     .okPath (some path))
  | some e => (st, .err e)

/-- Embeds `set_current_file` (main.rs 301–316). -/
def set_current_file (path : Option String) (st : AppState) :
    AppState × CmdResult :=
  let st1 := { st with current_file := path, modified := false }
  match path with
  | some p =>
    let settings' := add_recent_settings st1.settings p
    ({ st1 with settings := settings', persisted := settings' }, .okPath path)
  | none => (st1, .okPath path)

/-- The `{path, modified, filename}` record returned by `get_file_state`. -/
structure FileStateInfo where
  path : Option String
  modified : Bool
  filename : String
deriving DecidableEq, Repr

/-- Embeds `get_file_state` (main.rs 319–337). -/
def get_file_state (st : AppState) : FileStateInfo :=
  { path := st.current_file, modified := st.modified,
    filename := fileDisplayName st.current_file }

/-- Embeds `update_title` (main.rs 123–139), returning the title string set
on the window: `format!("Quill - {}{}", name, modified)`. -/
def update_title (st : AppState) : String :=
  "Quill - " ++ fileDisplayName st.current_file ++
    (if st.modified then "*" else "")

/-- Embeds `set_modified` (main.rs 340–344). -/
def set_modified (m : Bool) (st : AppState) : AppState :=
  { st with modified := m }

/-- Embeds `add_recent_file` (main.rs 354–359). -/
def add_recent_file (path : String) (st : AppState) : AppState :=
  let settings' := add_recent_settings st.settings path
  { st with settings := settings', persisted := settings' }

/-- Embeds `clear_recent_files` (main.rs 362–367). -/
def clear_recent_files (st : AppState) : AppState :=
  let settings' := { st.settings with recent_files := [] }
  { st with settings := settings', persisted := settings' }

/-- Embeds `set_theme` (main.rs 382–388). -/
def set_theme (t : String) (st : AppState) : AppState :=
  let settings' := { st.settings with theme := t }
  { st with settings := settings', persisted := settings' }

/-- Embeds `set_font_size` (main.rs 391–398): `size.clamp(8, 32)` stored and
persisted.  Rust `clamp(min, max)` is: below `min` gives `min`, above `max`
gives `max`, otherwise the value itself. -/
def set_font_size (size : Nat) (st : AppState) : AppState :=
  let settings' :=
    { st.settings with
      font_size := if size < 8 then 8 else if 32 < size then 32 else size }
  { st with settings := settings', persisted := settings' }

/-- Embeds `set_word_wrap` (main.rs 401–407). -/
def set_word_wrap (b : Bool) (st : AppState) : AppState :=
  let settings' := { st.settings with word_wrap := b }
  { st with settings := settings', persisted := settings' }

/-- Embeds `toggle_word_wrap` (main.rs 410–417). -/
def toggle_word_wrap (st : AppState) : AppState :=
  let settings' := { st.settings with word_wrap := !st.settings.word_wrap }
  { st with settings := settings', persisted := settings' }

/-- Embeds `save_window_size` (main.rs 428–434). -/
def save_window_size (w h : Nat) (st : AppState) : AppState :=
  let settings' := { st.settings with window_width := w, window_height := h }
  { st with settings := settings', persisted := settings' }

/-- Embeds `save_window_position` (main.rs 443–449). -/
def save_window_position (x y : Int) (st : AppState) : AppState :=
  let settings' := { st.settings with window_x := some x, window_y := some y }
  { st with settings := settings', persisted := settings' }

/-- Embeds `get_startup_file` (main.rs 454–474): `startup_file.take()`, then
on a successful read the same updates as `open`; on a failed read, `None` is
returned (the `take` having already cleared `startup_file`). -/
def get_startup_file (fs : String → Option (List Nat)) (st : AppState) :
    AppState × Option (String × String) :=
  match st.startup_file with
  | none => (st, none)
  | some path =>
    let st1 := { st with startup_file := none }
    match read_file fs path with
    | .ok content =>
      let settings' := add_recent_settings st1.settings path
      ({ st1 with current_file := some path, modified := false,
                  settings := settings', persisted := settings' },
       some (content, path))
    | .error _ => (st1, none)

/-- The state built in `main` (main.rs 496–520): settings loaded from the
config file, no current file, unmodified, the launch argument as
`startup_file`. -/
def initial_state (file : Option Json) (startup : Option String) : AppState :=
  let s := load_settings file
  { settings := s, current_file := none, modified := false,
    startup_file := startup, persisted := s }

/-- One dispatcher invocation of a state-mutating command, together with the
external inputs (dialog result, filesystem snapshot, write outcome) it ran
against. -/
inductive Op where
  | opNew
  | opOpen (fs : String → Option (List Nat)) (picked : Option String)
  | opOpenRecent (fs : String → Option (List Nat)) (path : String)
  | opSave (writeErr : Option String) (path : String)
  | opSetCurrent (path : Option String)
  | opSetModified (m : Bool)
  | opAddRecent (path : String)
  | opClearRecent
  | opSetTheme (t : String)
  | opSetFontSize (n : Nat)
  | opSetWordWrap (b : Bool)
  | opToggleWordWrap
  | opSaveWindowSize (w h : Nat)
  | opSaveWindowPosition (x y : Int)
  | opStartupFile (fs : String → Option (List Nat))

/-- The state reached by one command invocation. -/
def step (st : AppState) (op : Op) : AppState :=
  match op with
  | .opNew => (new_file st).1
  | .opOpen fs picked => (open_file fs picked st).1
  | .opOpenRecent fs path => (open_recent_file fs path st).1
  | .opSave we path => (save_to_path we path st).1
  | .opSetCurrent path => (set_current_file path st).1
  | .opSetModified m => set_modified m st
  | .opAddRecent path => add_recent_file path st
  | .opClearRecent => clear_recent_files st
  | .opSetTheme t => set_theme t st
  | .opSetFontSize n => set_font_size n st
  | .opSetWordWrap b => set_word_wrap b st
  | .opToggleWordWrap => toggle_word_wrap st
  | .opSaveWindowSize w h => save_window_size w h st
  | .opSaveWindowPosition x y => save_window_position x y st
  | .opStartupFile fs => (get_startup_file fs st).1

/-- The recent-files invariant claimed by the spec: pairwise-distinct
entries, at most `MAX_RECENT_FILES` of them. -/
def RecentOK (l : List String) : Prop :=
  l.Nodup ∧ l.length ≤ MAX_RECENT_FILES

/-! ## Helper lemmas -/

theorem add_recent_eq (l : List String) (p : String) :
    add_recent_file_impl l p = p :: (l.filter (fun q => q != p)).take 9 := by
  simp [add_recent_file_impl, MAX_RECENT_FILES, List.take_succ_cons]

theorem mem_filter_ne {l : List String} {p q : String} :
    q ∈ l.filter (fun r => r != p) ↔ q ∈ l ∧ q ≠ p := by
  simp [List.mem_filter, bne_iff_ne]

theorem self_not_mem_filter_ne (l : List String) (p : String) :
    p ∉ l.filter (fun r => r != p) := by
  intro h
  exact (mem_filter_ne.mp h).2 rfl

theorem recentOK_add {l : List String} (p : String) (h : l.Nodup) :
    RecentOK (add_recent_file_impl l p) := by
  constructor
  · rw [add_recent_eq]
    refine List.nodup_cons.mpr ⟨fun hmem => ?_, ?_⟩
    · exact self_not_mem_filter_ne l p (List.take_subset 9 _ hmem)
    · exact (List.take_sublist 9 _).nodup (h.filter _)
  · simp only [add_recent_file_impl]
    calc ((p :: l.filter (fun q => q != p)).take MAX_RECENT_FILES).length
        ≤ MAX_RECENT_FILES := by
          rw [List.length_take]; exact min_le_left _ _

theorem recentOK_filter {l : List String} (pred : String → Bool)
    (h : RecentOK l) : RecentOK (l.filter pred) := by
  exact ⟨h.1.filter pred, le_trans (List.length_filter_le pred l) h.2⟩

theorem filter_take_filter_ne (l : List String) (p : String) :
    ((l.filter (fun q => q != p)).take 9).filter (fun q => q != p) =
      (l.filter (fun q => q != p)).take 9 := by
  refine List.filter_eq_self.mpr fun a ha => ?_
  have := List.take_subset 9 _ ha
  exact (List.mem_filter.mp this).2

/-! ## C3 -/

/-- C3: adding a path to the recent-files list removes every occurrence of it
(exact string match: the retained entries are exactly the members of the old
list different from the path), inserts the path at index 0, and truncates to
the first 10 entries, so the result's head is the path and its tail is the
old list with the path removed, cut to at most 9 entries. -/
theorem C3_add_recent_spec (l : List String) (p : String) :
    add_recent_file_impl l p = p :: (l.filter (fun q => q != p)).take 9
    ∧ (∀ q, q ∈ l.filter (fun q => q != p) ↔ q ∈ l ∧ q ≠ p)
    ∧ ((l.filter (fun q => q != p)).take 9).length ≤ 9 := by
  refine ⟨add_recent_eq l p, fun q => mem_filter_ne, ?_⟩
  rw [List.length_take]; exact min_le_left _ _

/-! ## C8 -/

/-- C8: adding the same path twice in a row gives the same list as adding it
once, and the single addition leaves exactly one occurrence of the path,
sitting at index 0. -/
theorem C8_add_recent_idem (l : List String) (p : String) :
    add_recent_file_impl (add_recent_file_impl l p) p = add_recent_file_impl l p
    ∧ (add_recent_file_impl l p).count p = 1
    ∧ (add_recent_file_impl l p).head? = some p := by
  have hnot : p ∉ (l.filter (fun q => q != p)).take 9 := fun h =>
    self_not_mem_filter_ne l p (List.take_subset 9 _ h)
  refine ⟨?_, ?_, ?_⟩
  · rw [add_recent_eq, add_recent_eq]
    have hp : ((p :: (l.filter (fun q => q != p)).take 9).filter
        (fun q => q != p)) = (l.filter (fun q => q != p)).take 9 := by
      rw [List.filter_cons_of_neg (by simp), filter_take_filter_ne]
    rw [hp, List.take_take]
    simp
  · rw [add_recent_eq, List.count_cons_self, List.count_eq_zero.mpr hnot]
  · rw [add_recent_eq]; rfl

/-! ## C9 -/

/-- C9: `set_font_size` stores its input clamped to `[8, 32]`: 100 stores 32,
0 stores 8, any input already in the interval is stored unchanged, and in
general the stored value is `min (max size 8) 32`. -/
theorem C9_font_size_clamped (st : AppState) (n : Nat) :
    (set_font_size 100 st).settings.font_size = 32
    ∧ (set_font_size 0 st).settings.font_size = 8
    ∧ (8 ≤ n → n ≤ 32 → (set_font_size n st).settings.font_size = n)
    ∧ (set_font_size n st).settings.font_size = min (max n 8) 32 := by
  refine ⟨rfl, rfl, fun h1 h2 => ?_, ?_⟩ <;>
    · simp only [set_font_size]
      split <;> try split
      all_goals omega

/-- Witness for C9 at concrete inputs. -/
theorem C9_font_size_clamped_witness :
    (set_font_size 20 (initial_state none none)).settings.font_size = 20 :=
  (C9_font_size_clamped (initial_state none none) 20).2.2.1 (by decide) (by decide)

theorem isPrefixOf_mem {l₁ l₂ : List Char} (h : l₁.isPrefixOf l₂ = true) :
    ∀ a ∈ l₁, a ∈ l₂ := by
  induction l₁ generalizing l₂ with
  | nil => intro a ha; cases ha
  | cons x xs ih =>
    cases l₂ with
    | nil => simp [List.isPrefixOf] at h
    | cons y ys =>
      simp only [List.isPrefixOf, Bool.and_eq_true, beq_iff_eq] at h
      intro a ha
      rcases List.mem_cons.mp ha with rfl | hmem
      · exact h.1 ▸ List.mem_cons_self _ _
      · exact List.mem_cons_of_mem _ (ih h.2 a hmem)

theorem containsSeq_mem {needle hay : List Char}
    (h : containsSeq needle hay = true) : ∀ a ∈ needle, a ∈ hay := by
  induction hay with
  | nil =>
    intro a ha
    simp only [containsSeq, List.isEmpty_iff] at h
    subst h; cases ha
  | cons c rest ih =>
    simp only [containsSeq, Bool.or_eq_true] at h
    rcases h with h | h
    · exact isPrefixOf_mem h
    · intro a ha; exact List.mem_cons_of_mem _ (ih h a ha)

theorem digitChar_isDigit (m : Nat) (h : m < 10) :
    (Nat.digitChar m).isDigit = true := by
  interval_cases m <;> decide

theorem toDigitsCore_digits (fuel : Nat) :
    ∀ (n : Nat) (acc : List Char), (∀ c ∈ acc, c.isDigit = true) →
      ∀ c ∈ Nat.toDigitsCore 10 fuel n acc, c.isDigit = true := by
  induction fuel with
  | zero => intro n acc hacc c hc; exact hacc c hc
  | succ fuel ih =>
    intro n acc hacc c hc
    rw [Nat.toDigitsCore] at hc
    have hd : ∀ x ∈ (Nat.digitChar (n % 10) :: acc), x.isDigit = true := by
      intro x hx
      rcases List.mem_cons.mp hx with rfl | hmem
      · exact digitChar_isDigit _ (Nat.mod_lt _ (by norm_num))
      · exact hacc x hmem
    by_cases h10 : n / 10 = 0
    · rw [if_pos h10] at hc
      exact hd c hc
    · rw [if_neg h10] at hc
      exact ih (n / 10) _ hd c hc

theorem toString_nat_digits (n : Nat) :
    ∀ c ∈ (toString n).toList, c.isDigit = true := by
  intro c hc
  have h : (toString n).toList = Nat.toDigitsCore 10 (n + 1) n [] := rfl
  rw [h] at hc
  exact toDigitsCore_digits (n + 1) n [] (by intro x hx; cases hx) c hc

theorem tooLargeMsg_not_notfound (n : Nat) :
    strContains (tooLargeMsg n) "does not exist" = false := by
  by_contra hcon
  have h : strContains (tooLargeMsg n) "does not exist" = true := by
    revert hcon; cases strContains (tooLargeMsg n) "does not exist" <;> simp
  have hd : ('d' : Char) ∈ (tooLargeMsg n).toList :=
    containsSeq_mem h 'd' (by decide)
  have hsplit : (tooLargeMsg n).toList =
      "File too large (".toList ++ (toString (n / 1024 / 1024)).toList ++
      "MB). Maximum is 10MB.".toList := by
    simp only [tooLargeMsg, String.toList, String.data_append]
  rw [hsplit] at hd
  rcases List.mem_append.mp hd with hd1 | hd3
  · rcases List.mem_append.mp hd1 with hd1 | hd2
    · revert hd1; decide
    · have := toString_nat_digits (n / 1024 / 1024) 'd' hd2
      revert this; decide
  · revert hd3; decide

theorem notfound_contains :
    strContains "File does not exist" "does not exist" = true := by decide

theorem read_error_cases {fs : String → Option (List Nat)} {path e : String}
    (h : read_file fs path = .error e) :
    (fs path = none ∧ e = "File does not exist") ∨
    (∃ bytes, fs path = some bytes ∧ MAX_FILE_SIZE < bytes.length ∧
      e = tooLargeMsg bytes.length) := by
  cases hfs : fs path with
  | none =>
    simp only [read_file, hfs] at h
    left
    exact ⟨rfl, by cases h; rfl⟩
  | some bytes =>
    simp only [read_file, hfs] at h
    right
    by_cases hlen : MAX_FILE_SIZE < bytes.length
    · rw [if_pos hlen] at h
      exact ⟨bytes, rfl, hlen, by cases h; rfl⟩
    · rw [if_neg hlen] at h
      cases hdec : utf8Decode bytes <;> rw [hdec] at h <;> cases h

theorem read_ok_of_le {fs : String → Option (List Nat)} {path : String}
    {bytes : List Nat} (h : fs path = some bytes)
    (hlen : bytes.length ≤ MAX_FILE_SIZE) :
    ∃ s, read_file fs path = .ok s := by
  simp only [read_file, h]
  rw [if_neg (by omega)]
  cases hdec : utf8Decode bytes with
  | some cps => exact ⟨_, rfl⟩
  | none => exact ⟨_, rfl⟩

theorem utf8DecodeFuel_replicate_ascii (fuel : Nat) :
    ∀ (n c : Nat), n ≤ fuel → c < 128 →
      utf8DecodeFuel fuel (List.replicate n c) = some (List.replicate n c) := by
  induction fuel with
  | zero =>
    intro n c hn hc
    interval_cases n
    rfl
  | succ fuel ih =>
    intro n c hn hc
    cases n with
    | zero => rfl
    | succ n =>
      rw [List.replicate_succ, utf8DecodeFuel]
      unfold utf8DecodeGo
      rw [if_pos hc, ih n c (by omega) hc]
      rfl

theorem utf8Decode_replicate_ascii (n c : Nat) (h : c < 128) :
    utf8Decode (List.replicate n c) = some (List.replicate n c) := by
  unfold utf8Decode
  rw [List.length_replicate]
  exact utf8DecodeFuel_replicate_ascii n n c le_rfl h

/-! ## C7 -/

theorem char_toNat_ofNat (b : Nat) (h : b < 55296) : (Char.ofNat b).toNat = b := by
  have hv : Nat.isValidChar b := Or.inl h
  simp only [Char.ofNat, hv, dif_pos]
  simp only [Char.ofNatAux, Char.toNat]
  simp [UInt32.toNat, UInt32.ofNatCore]

/-- `utf8Decode` is a right inverse of character-wise UTF-8 encoding: a
successful decode, re-encoded, reproduces the input bytes exactly (the
fuel-level statement). -/
theorem utf8DecodeFuel_encode (fuel : Nat) :
    ∀ (bytes cps : List Nat), bytes.length ≤ fuel →
      utf8DecodeFuel fuel bytes = some cps →
      (cps.map utf8EncodeChar).flatten = bytes := by
  induction fuel with
  | zero =>
    intro bytes cps hlen hd
    cases bytes with
    | nil => cases hd; rfl
    | cons b rest => simp at hlen
  | succ fuel ih =>
    intro bytes cps hlen hd
    cases bytes with
    | nil => cases hd; rfl
    | cons b rest =>
      have hlen1 : rest.length ≤ fuel := by
        simpa using Nat.le_of_succ_le_succ hlen
      simp only [utf8DecodeFuel] at hd
      unfold utf8DecodeGo at hd
      by_cases h1 : b < 128
      · rw [if_pos h1] at hd
        cases hcall : utf8DecodeFuel fuel rest with
        | none => rw [hcall] at hd; cases hd
        | some cs =>
          rw [hcall] at hd
          simp only [Option.map_some'] at hd
          cases hd
          simp only [List.map_cons, List.flatten_cons]
          rw [ih rest cs hlen1 hcall]
          have henc : utf8EncodeChar b = [b] := by
            unfold utf8EncodeChar
            rw [if_pos h1]
          rw [henc]
          rfl
      · rw [if_neg h1] at hd
        by_cases h2 : b < 194
        · rw [if_pos h2] at hd; cases hd
        · rw [if_neg h2] at hd
          by_cases h3 : b < 224
          · -- two-byte character
            rw [if_pos h3] at hd
            cases rest with
            | nil => cases hd
            | cons b1 rest2 =>
              simp only at hd
              by_cases hc : 128 ≤ b1 ∧ b1 < 192
              · rw [if_pos hc] at hd
                cases hcall : utf8DecodeFuel fuel rest2 with
                | none => rw [hcall] at hd; cases hd
                | some cs =>
                  rw [hcall] at hd
                  simp only [Option.map_some'] at hd
                  cases hd
                  simp only [List.map_cons, List.flatten_cons]
                  rw [ih rest2 cs (by simp at hlen1; omega) hcall]
                  have henc : utf8EncodeChar ((b - 192) * 64 + (b1 - 128)) =
                      [b, b1] := by
                    unfold utf8EncodeChar
                    rw [if_neg (by omega), if_pos (by omega)]
                    simp only [List.cons.injEq, and_true]
                    omega
                  rw [henc]
                  rfl
              · rw [if_neg hc] at hd; cases hd
          · rw [if_neg h3] at hd
            by_cases h4 : b < 240
            · -- three-byte character
              rw [if_pos h4] at hd
              cases rest with
              | nil => cases hd
              | cons b1 rest1 =>
                cases rest1 with
                | nil => cases hd
                | cons b2 rest3 =>
                  simp only at hd
                  by_cases hc : (if b = 224 then 160 ≤ b1 ∧ b1 < 192
                      else if b = 237 then 128 ≤ b1 ∧ b1 < 160
                      else 128 ≤ b1 ∧ b1 < 192) ∧ 128 ≤ b2 ∧ b2 < 192
                  · rw [if_pos hc] at hd
                    obtain ⟨hcif, hb2⟩ := hc
                    have hb1r : 128 ≤ b1 ∧ b1 < 192 := by
                      by_cases h224 : b = 224
                      · rw [if_pos h224] at hcif; omega
                      · rw [if_neg h224] at hcif
                        by_cases h237 : b = 237
                        · rw [if_pos h237] at hcif; omega
                        · rw [if_neg h237] at hcif; omega
                    have hge : 2048 ≤ (b - 224) * 4096 + (b1 - 128) * 64 +
                        (b2 - 128) := by
                      by_cases h224 : b = 224
                      · rw [if_pos h224] at hcif; omega
                      · omega
                    cases hcall : utf8DecodeFuel fuel rest3 with
                    | none => rw [hcall] at hd; cases hd
                    | some cs =>
                      rw [hcall] at hd
                      simp only [Option.map_some'] at hd
                      cases hd
                      simp only [List.map_cons, List.flatten_cons]
                      rw [ih rest3 cs (by simp at hlen1; omega) hcall]
                      have henc : utf8EncodeChar ((b - 224) * 4096 +
                          (b1 - 128) * 64 + (b2 - 128)) = [b, b1, b2] := by
                        unfold utf8EncodeChar
                        rw [if_neg (by omega), if_neg (by omega),
                          if_pos (by omega)]
                        simp only [List.cons.injEq, and_true]
                        omega
                      rw [henc]
                      rfl
                  · rw [if_neg hc] at hd; cases hd
            · rw [if_neg h4] at hd
              by_cases h5 : b < 245
              · -- four-byte character
                rw [if_pos h5] at hd
                cases rest with
                | nil => cases hd
                | cons b1 rest1 =>
                  cases rest1 with
                  | nil => cases hd
                  | cons b2 rest2 =>
                    cases rest2 with
                    | nil => cases hd
                    | cons b3 rest4 =>
                      simp only at hd
                      by_cases hc : (if b = 240 then 144 ≤ b1 ∧ b1 < 192
                          else if b = 244 then 128 ≤ b1 ∧ b1 < 144
                          else 128 ≤ b1 ∧ b1 < 192) ∧
                          (128 ≤ b2 ∧ b2 < 192) ∧ (128 ≤ b3 ∧ b3 < 192)
                      · rw [if_pos hc] at hd
                        obtain ⟨hcif, hb2, hb3⟩ := hc
                        have hb1r : 128 ≤ b1 ∧ b1 < 192 := by
                          by_cases h240 : b = 240
                          · rw [if_pos h240] at hcif; omega
                          · rw [if_neg h240] at hcif
                            by_cases h244 : b = 244
                            · rw [if_pos h244] at hcif; omega
                            · rw [if_neg h244] at hcif; omega
                        have hge : 65536 ≤ (b - 240) * 262144 +
                            (b1 - 128) * 4096 + (b2 - 128) * 64 + (b3 - 128) := by
                          by_cases h240 : b = 240
                          · rw [if_pos h240] at hcif; omega
                          · omega
                        cases hcall : utf8DecodeFuel fuel rest4 with
                        | none => rw [hcall] at hd; cases hd
                        | some cs =>
                          rw [hcall] at hd
                          simp only [Option.map_some'] at hd
                          cases hd
                          simp only [List.map_cons, List.flatten_cons]
                          rw [ih rest4 cs (by simp at hlen1; omega) hcall]
                          have henc : utf8EncodeChar ((b - 240) * 262144 +
                              (b1 - 128) * 4096 + (b2 - 128) * 64 + (b3 - 128)) =
                              [b, b1, b2, b3] := by
                            unfold utf8EncodeChar
                            rw [if_neg (by omega), if_neg (by omega),
                              if_neg (by omega)]
                            simp only [List.cons.injEq, and_true]
                            omega
                          rw [henc]
                          rfl
                      · rw [if_neg hc] at hd; cases hd
              · rw [if_neg h5] at hd; cases hd

/-- The round trip at the `utf8Decode` level. -/
theorem utf8Decode_encode {bytes cps : List Nat}
    (h : utf8Decode bytes = some cps) :
    (cps.map utf8EncodeChar).flatten = bytes :=
  utf8DecodeFuel_encode bytes.length bytes cps le_rfl h

/-- C7: an existing file within the size limit always reads successfully:
as the UTF-8 decoding of its bytes when they are valid UTF-8 (the decoded
scalar values re-encode to exactly the file's bytes), otherwise as the
byte-for-byte fallback mapping each byte to the code point of the same
numeric value — so a read never fails because of encoding. -/
theorem C7_read_encoding (fs : String → Option (List Nat)) (path : String)
    (bytes : List Nat) (hfs : fs path = some bytes)
    (hlen : bytes.length ≤ MAX_FILE_SIZE) (hbytes : ∀ b ∈ bytes, b < 256) :
    ∃ s, read_file fs path = .ok s ∧
      ((∃ cps, utf8Decode bytes = some cps
          ∧ s = String.mk (cps.map (fun c => Char.ofNat c))
          ∧ (cps.map utf8EncodeChar).flatten = bytes)
       ∨ (utf8Decode bytes = none
          ∧ s = String.mk (bytes.map (fun b => Char.ofNat b))
          ∧ s.toList.map Char.toNat = bytes)) := by
  simp only [read_file, hfs]
  rw [if_neg (by omega)]
  cases hdec : utf8Decode bytes with
  | some cps =>
    exact ⟨_, rfl, Or.inl ⟨cps, rfl, rfl, utf8Decode_encode hdec⟩⟩
  | none =>
    refine ⟨_, rfl, Or.inr ⟨rfl, rfl, ?_⟩⟩
    show (bytes.map (fun b => Char.ofNat b)).map Char.toNat = bytes
    rw [List.map_map]
    have : ∀ b ∈ bytes, (Char.toNat ∘ fun b => Char.ofNat b) b = id b := by
      intro b hb
      exact char_toNat_ofNat b (by have := hbytes b hb; omega)
    rw [List.map_congr_left this, List.map_id]

/-- Witness for C7: a single invalid byte `0xFF` still reads, through the
byte-to-code-point fallback. -/
theorem C7_read_encoding_witness :
    read_file (fun _ => some [255]) "/bin.dat" =
      .ok (String.mk [Char.ofNat 255]) := by
  obtain ⟨s, hs, hcase⟩ := C7_read_encoding (fun _ => some [255]) "/bin.dat"
    [255] rfl (by norm_num [MAX_FILE_SIZE]) (by decide)
  rcases hcase with ⟨cps, hdec, _, _⟩ | ⟨hdec, hval, _⟩
  · rw [show utf8Decode [255] = none from rfl] at hdec; cases hdec
  · rw [hs, hval]; rfl

/-! ## C10 -/

/-- C10: when the current file is a non-empty path whose final component is
not a normal file name (`Path::file_name()` is `None`: the path ends in `..`,
or has no normal component, as `/` does), `get_file_state` reports the empty
string as `filename` — neither `"Untitled"` nor a base name — and the window
title is `"Quill - "` followed only by the modified marker. -/
theorem C10_no_normal_filename (st : AppState) (p : String)
    (hne : p ≠ "") (hcur : st.current_file = some p)
    (hfn : pathFileName p = none) :
    get_file_state st =
      { path := some p, modified := st.modified, filename := "" }
    ∧ (get_file_state st).filename ≠ "Untitled"
    ∧ update_title st = "Quill - " ++ (if st.modified then "*" else "") := by
  have hd : fileDisplayName (some p) = "" := by
    simp only [fileDisplayName, hfn, Option.getD_none]
  refine ⟨?_, ?_, ?_⟩
  · simp only [get_file_state, hcur, hd]
  · simp only [get_file_state, hcur, hd]
    decide
  · simp only [update_title, hcur, hd, String.append_empty]

/-- Witness for C10 at the concrete path `"/foo/.."`. -/
theorem C10_no_normal_filename_witness :
    get_file_state
      { settings := Settings.default, current_file := some "/foo/..",
        modified := false, startup_file := none,
        persisted := Settings.default } =
      { path := some "/foo/..", modified := false, filename := "" }
    ∧ update_title
      { settings := Settings.default, current_file := some "/foo/..",
        modified := false, startup_file := none,
        persisted := Settings.default } = "Quill - " := by
  have h := C10_no_normal_filename
    { settings := Settings.default, current_file := some "/foo/..",
      modified := false, startup_file := none, persisted := Settings.default }
    "/foo/.." (by decide) rfl (by rfl)
  exact ⟨h.1, h.2.2⟩

/-! ## C1 -/

theorem getStringField_spec {fields : List (String × Json)} {k d v : String}
    (h : getStringField fields k d = some v) :
    (fields.lookup k = none ∧ v = d) ∨ fields.lookup k = some (.str v) := by
  cases hl : fields.lookup k with
  | none =>
    simp only [getStringField, hl] at h
    cases h; exact Or.inl ⟨rfl, rfl⟩
  | some j =>
    cases j with
    | str s => simp only [getStringField, hl] at h; cases h; exact Or.inr rfl
    | null => simp only [getStringField, hl] at h; cases h
    | bool b => simp only [getStringField, hl] at h; cases h
    | num n => simp only [getStringField, hl] at h; cases h
    | arr xs => simp only [getStringField, hl] at h; cases h
    | obj o => simp only [getStringField, hl] at h; cases h

theorem getU32Field_spec {fields : List (String × Json)} {k : String} {d v : Nat}
    (h : getU32Field fields k d = some v) :
    (fields.lookup k = none ∧ v = d) ∨
    (fields.lookup k = some (.num (v : Int)) ∧ v < 4294967296) := by
  cases hl : fields.lookup k with
  | none =>
    simp only [getU32Field, hl] at h
    cases h; exact Or.inl ⟨rfl, rfl⟩
  | some j =>
    cases j with
    | num n =>
      simp only [getU32Field, hl] at h
      by_cases hr : 0 ≤ n ∧ n < 4294967296
      · rw [if_pos hr] at h
        cases h
        refine Or.inr ⟨?_, by omega⟩
        rw [Int.toNat_of_nonneg hr.1]
      · rw [if_neg hr] at h; cases h
    | str s => simp only [getU32Field, hl] at h; cases h
    | null => simp only [getU32Field, hl] at h; cases h
    | bool b => simp only [getU32Field, hl] at h; cases h
    | arr xs => simp only [getU32Field, hl] at h; cases h
    | obj o => simp only [getU32Field, hl] at h; cases h

theorem getBoolField_spec {fields : List (String × Json)} {k : String}
    {d v : Bool} (h : getBoolField fields k d = some v) :
    (fields.lookup k = none ∧ v = d) ∨ fields.lookup k = some (.bool v) := by
  cases hl : fields.lookup k with
  | none =>
    simp only [getBoolField, hl] at h
    cases h; exact Or.inl ⟨rfl, rfl⟩
  | some j =>
    cases j with
    | bool b => simp only [getBoolField, hl] at h; cases h; exact Or.inr rfl
    | null => simp only [getBoolField, hl] at h; cases h
    | str s => simp only [getBoolField, hl] at h; cases h
    | num n => simp only [getBoolField, hl] at h; cases h
    | arr xs => simp only [getBoolField, hl] at h; cases h
    | obj o => simp only [getBoolField, hl] at h; cases h

theorem getOptI32Field_spec {fields : List (String × Json)} {k : String}
    {v : Option Int} (h : getOptI32Field fields k = some v) :
    ((fields.lookup k = none ∨ fields.lookup k = some Json.null) ∧ v = none) ∨
    (∃ n, fields.lookup k = some (Json.num n) ∧ v = some n) := by
  cases hl : fields.lookup k with
  | none =>
    simp only [getOptI32Field, hl] at h
    cases h; exact Or.inl ⟨Or.inl rfl, rfl⟩
  | some j =>
    cases j with
    | null =>
      simp only [getOptI32Field, hl] at h
      cases h; exact Or.inl ⟨Or.inr rfl, rfl⟩
    | num n =>
      simp only [getOptI32Field, hl] at h
      by_cases hr : -2147483648 ≤ n ∧ n ≤ 2147483647
      · rw [if_pos hr] at h; cases h; exact Or.inr ⟨n, rfl, rfl⟩
      · rw [if_neg hr] at h; cases h
    | str s => simp only [getOptI32Field, hl] at h; cases h
    | bool b => simp only [getOptI32Field, hl] at h; cases h
    | arr xs => simp only [getOptI32Field, hl] at h; cases h
    | obj o => simp only [getOptI32Field, hl] at h; cases h

theorem extractStrings_spec {xs : List Json} {l : List String}
    (h : extractStrings xs = some l) : xs = l.map Json.str := by
  induction xs generalizing l with
  | nil => cases h; rfl
  | cons x rest ih =>
    cases x with
    | str s =>
      simp only [extractStrings] at h
      cases hr : extractStrings rest with
      | none => rw [hr] at h; cases h
      | some l2 =>
        rw [hr] at h
        cases h
        simp only [List.map_cons, List.cons.injEq, true_and]
        exact ih hr
    | null => cases h
    | bool b => cases h
    | num n => cases h
    | arr ys => cases h
    | obj o => cases h

theorem getStringListField_spec {fields : List (String × Json)} {k : String}
    {v : List String} (h : getStringListField fields k = some v) :
    (fields.lookup k = none ∧ v = []) ∨
    fields.lookup k = some (Json.arr (v.map Json.str)) := by
  cases hl : fields.lookup k with
  | none =>
    simp only [getStringListField, hl] at h
    cases h; exact Or.inl ⟨rfl, rfl⟩
  | some j =>
    cases j with
    | arr xs =>
      simp only [getStringListField, hl] at h
      have hx := extractStrings_spec h
      exact Or.inr (by rw [← hx])
    | null => simp only [getStringListField, hl] at h; cases h
    | bool b => simp only [getStringListField, hl] at h; cases h
    | num n => simp only [getStringListField, hl] at h; cases h
    | str s => simp only [getStringListField, hl] at h; cases h
    | obj o => simp only [getStringListField, hl] at h; cases h

/-- C1 (amended): settings load never raises (it is total); a missing or
unparsable file, and equally a file any of whose fields fails to
deserialize, yields all defaults; when deserialization succeeds, each field
is either the file's value (for a present, valid key) or that field's
default (for a missing key) — per-field defaulting applies to *missing*
fields only, not to invalid ones. -/
theorem C1_load_settings (fields : List (String × Json)) (s : Settings) :
    load_settings none = Settings.default
    ∧ (∀ j, deserializeSettings j = none →
        load_settings (some j) = Settings.default)
    ∧ (deserializeSettings (Json.obj fields) = some s →
        load_settings (some (Json.obj fields)) = s
        ∧ ((fields.lookup "theme" = none ∧ s.theme = "dark") ∨
            fields.lookup "theme" = some (Json.str s.theme))
        ∧ ((fields.lookup "font_size" = none ∧ s.font_size = 14) ∨
            fields.lookup "font_size" = some (Json.num (s.font_size : Int)))
        ∧ ((fields.lookup "word_wrap" = none ∧ s.word_wrap = true) ∨
            fields.lookup "word_wrap" = some (Json.bool s.word_wrap))
        ∧ ((fields.lookup "window_width" = none ∧ s.window_width = 1000) ∨
            fields.lookup "window_width" = some (Json.num (s.window_width : Int)))
        ∧ ((fields.lookup "window_height" = none ∧ s.window_height = 700) ∨
            fields.lookup "window_height" = some (Json.num (s.window_height : Int)))
        ∧ (((fields.lookup "window_x" = none ∨
              fields.lookup "window_x" = some Json.null) ∧ s.window_x = none) ∨
            (∃ n, fields.lookup "window_x" = some (Json.num n) ∧
              s.window_x = some n))
        ∧ (((fields.lookup "window_y" = none ∨
              fields.lookup "window_y" = some Json.null) ∧ s.window_y = none) ∨
            (∃ n, fields.lookup "window_y" = some (Json.num n) ∧
              s.window_y = some n))
        ∧ ((fields.lookup "recent_files" = none ∧ s.recent_files = []) ∨
            fields.lookup "recent_files" =
              some (Json.arr (s.recent_files.map Json.str)))) := by
  refine ⟨rfl, fun j hj => by simp only [load_settings, hj, Option.getD], fun h => ?_⟩
  refine ⟨by simp only [load_settings, h, Option.getD], ?_⟩
  simp only [deserializeSettings, bind, Option.bind_eq_some] at h
  obtain ⟨t, ht, fsz, hfsz, ww, hww, wi, hwi, he, hhe, wx, hwx, wy, hwy, rf, hrf,
    heq⟩ := h
  cases heq
  refine ⟨?_, ?_, ?_, ?_, ?_, ?_, ?_, ?_⟩
  · exact getStringField_spec ht
  · rcases getU32Field_spec hfsz with hc | hc
    · exact Or.inl hc
    · exact Or.inr hc.1
  · exact getBoolField_spec hww
  · rcases getU32Field_spec hwi with hc | hc
    · exact Or.inl hc
    · exact Or.inr hc.1
  · rcases getU32Field_spec hhe with hc | hc
    · exact Or.inl hc
    · exact Or.inr hc.1
  · exact getOptI32Field_spec hwx
  · exact getOptI32Field_spec hwy
  · exact getStringListField_spec hrf

/-- Counterexample to C1 as stated: the partially valid file
`{"theme": "light", "font_size": "big"}` (a valid `theme`, an invalid
`font_size`) does **not** keep its valid field — the invalid field fails the
whole deserialization and `load_settings` falls back to all defaults, so the
loaded theme is `"dark"`, not `"light"`. -/
theorem C1_counterexample :
    load_settings (some (Json.obj
      [("theme", Json.str "light"), ("font_size", Json.str "big")])) =
      Settings.default
    ∧ Settings.default.theme = "dark"
    ∧ "dark" ≠ "light" := by
  refine ⟨rfl, rfl, by decide⟩

/-- Witness for C1: a file carrying only a valid `"theme"` key loads with
that theme and the documented defaults for every other field. -/
theorem C1_load_settings_witness :
    load_settings (some (Json.obj [("theme", Json.str "light")])) =
      { Settings.default with theme := "light" } :=
  (C1_load_settings [("theme", Json.str "light")]
    { Settings.default with theme := "light" }).2.2 rfl |>.1

/-! ## C5 -/

/-- Counterexample to C5 as stated: with a startup file that no longer
exists, `get_startup_file` returns nothing but still mutates session state —
the `take()` at main.rs 458 clears `startup_file` before the read is
attempted, so the failed call does not leave the state untouched. -/
theorem C5_counterexample :
    ((get_startup_file (fun _ => none)
        (initial_state none (some "/tmp/gone.md"))).2 = none)
    ∧ (get_startup_file (fun _ => none)
        (initial_state none (some "/tmp/gone.md"))).1 ≠
        initial_state none (some "/tmp/gone.md") := by
  constructor
  · rfl
  · decide

/-- C5 (amended): `consume_startup_file` returns a value at most once — after
any call, a further call returns nothing regardless of the filesystem; on a
successful read it sets the current file, clears the modified flag, adds the
path to recent files and hands the settings to persistence, like `open`; on a
failed read it returns nothing and mutates nothing **except** `startup_file`
itself, which the first call clears whatever the outcome. -/
theorem C5_startup_once (fs fs2 : String → Option (List Nat)) (st : AppState) :
    ((get_startup_file fs2 (get_startup_file fs st).1).2 = none)
    ∧ (get_startup_file fs st).1.startup_file = none
    ∧ (∀ path content, st.startup_file = some path →
        read_file fs path = .ok content →
        get_startup_file fs st =
          ({ st with current_file := some path, modified := false,
                     startup_file := none,
                     settings := add_recent_settings st.settings path,
                     persisted := add_recent_settings st.settings path },
           some (content, path)))
    ∧ (∀ path e, st.startup_file = some path →
        read_file fs path = .error e →
        get_startup_file fs st = ({ st with startup_file := none }, none)) := by
  have hclear : (get_startup_file fs st).1.startup_file = none := by
    cases hs : st.startup_file with
    | none => simp only [get_startup_file, hs]
    | some path =>
      cases hr : read_file fs path with
      | ok c => simp only [get_startup_file, hs, hr]
      | error e => simp only [get_startup_file, hs, hr]
  refine ⟨?_, hclear, ?_, ?_⟩
  · generalize hgen : (get_startup_file fs st).1 = st1 at hclear
    simp only [get_startup_file, hclear]
  · intro path content hs hr
    simp only [get_startup_file, hs, hr]
  · intro path e hs hr
    simp only [get_startup_file, hs, hr]

/-- Witness for C5: a second call after a successful consume yields nothing,
and the success updates the state like `open`. -/
theorem C5_startup_once_witness :
    ((get_startup_file (fun _ => some [104, 105])
        (get_startup_file (fun _ => some [104, 105])
          (initial_state none (some "/tmp/a.md"))).1).2 = none)
    ∧ get_startup_file (fun _ => some [104, 105])
        (initial_state none (some "/tmp/a.md")) =
      ({ settings := { Settings.default with recent_files := ["/tmp/a.md"] },
         current_file := some "/tmp/a.md", modified := false,
         startup_file := none,
         persisted := { Settings.default with recent_files := ["/tmp/a.md"] } },
       some ("hi", "/tmp/a.md")) := by
  have h := C5_startup_once (fun _ => some [104, 105]) (fun _ => some [104, 105])
    (initial_state none (some "/tmp/a.md"))
  refine ⟨h.1, ?_⟩
  have h3 := h.2.2.1 "/tmp/a.md" "hi" rfl (by rfl)
  rw [h3]
  decide

/-! ## C2 -/

theorem step_recentOK (st : AppState) (op : Op)
    (h : RecentOK st.settings.recent_files) :
    RecentOK ((step st op).settings.recent_files) := by
  rcases op with _ | ⟨fs, picked⟩ | ⟨fs, path⟩ | ⟨we, path⟩ | path | m | path | _ |
    t | n | b | _ | ⟨w, hh⟩ | ⟨x, y⟩ | fs
  case opNew => exact h
  case opOpen =>
    rcases picked with _ | path
    · exact h
    · simp only [step, open_file]
      cases hr : read_file fs path with
      | ok c =>
        simpa [add_recent_settings] using recentOK_add path h.1
      | error e => exact h
  case opOpenRecent =>
    simp only [step, open_recent_file]
    cases hr : read_file fs path with
    | ok c => simpa [add_recent_settings] using recentOK_add path h.1
    | error e =>
      by_cases hc : strContains e "does not exist" = true
      · simpa [hc] using recentOK_filter _ h
      · simpa [hc] using h
  case opSave =>
    rcases we with _ | e
    · simpa [step, save_to_path, add_recent_settings] using recentOK_add path h.1
    · exact h
  case opSetCurrent =>
    rcases path with _ | p
    · exact h
    · simpa [step, set_current_file, add_recent_settings] using
        recentOK_add p h.1
  case opSetModified => exact h
  case opAddRecent =>
    simpa [step, add_recent_file, add_recent_settings] using
      recentOK_add path h.1
  case opClearRecent =>
    refine ⟨?_, ?_⟩ <;> simp [step, clear_recent_files, MAX_RECENT_FILES]
  case opSetTheme => exact h
  case opSetFontSize => exact h
  case opSetWordWrap => exact h
  case opToggleWordWrap => exact h
  case opSaveWindowSize => exact h
  case opSaveWindowPosition => exact h
  case opStartupFile =>
    cases hs : st.startup_file with
    | none => simpa [step, get_startup_file, hs] using h
    | some path =>
      cases hr : read_file fs path with
      | ok c =>
        simpa [step, get_startup_file, hs, hr, add_recent_settings] using
          recentOK_add path h.1
      | error e => simpa [step, get_startup_file, hs, hr] using h

/-- C2 (amended): the recent-files invariant — pairwise-distinct entries,
length at most 10 — is preserved by every session operation, so it holds in
every state reachable by any operation sequence from a state whose list
satisfies it (in particular from default settings).  Settings load itself
performs no validation, so it does not establish the invariant (see the
counterexample). -/
theorem C2_recent_invariant_preserved (st : AppState) (ops : List Op)
    (h : RecentOK st.settings.recent_files) :
    RecentOK ((ops.foldl step st).settings.recent_files) := by
  induction ops generalizing st with
  | nil => exact h
  | cons op rest ih => exact ih (step st op) (step_recentOK st op h)

/-- Counterexample to C2 as stated: a well-typed `settings.json` whose
`recent_files` already contains a duplicate is loaded verbatim by
`load_settings`, so the state right after settings load — a reachable state
of the session — violates pairwise-distinctness. -/
theorem C2_counterexample :
    (initial_state
        (some (Json.obj [("recent_files", Json.arr [Json.str "a", Json.str "a"])]))
        none).settings.recent_files = ["a", "a"]
    ∧ ¬ (["a", "a"] : List String).Nodup := by
  constructor
  · rfl
  · decide

/-- Witness for C2: from the default initial state, a burst of insertions
still satisfies the invariant. -/
theorem C2_recent_invariant_preserved_witness :
    RecentOK (([Op.opAddRecent "a", Op.opAddRecent "b", Op.opAddRecent "a"].foldl
      step (initial_state none none)).settings.recent_files) :=
  C2_recent_invariant_preserved (initial_state none none)
    [Op.opAddRecent "a", Op.opAddRecent "b", Op.opAddRecent "a"]
    (by constructor <;> decide)

/-! ## C6 -/

/-- C6: `read_file` errors with the not-found message exactly when the path
does not exist, and — for an existing file — errors with the too-large
message exactly when the byte count strictly exceeds 10 MiB (the message
carrying the size integer-divided down to MiB); a file of exactly
10 MiB succeeds, one of 10 MiB + 1 bytes fails, its reported size rounding
to 10. -/
theorem C6_read_size_limits (fs : String → Option (List Nat)) (path : String) :
    (fs path = none → read_file fs path = .error "File does not exist")
    ∧ (read_file fs path = .error "File does not exist" → fs path = none)
    ∧ (∀ bytes, fs path = some bytes →
        (read_file fs path = .error (tooLargeMsg bytes.length) ↔
          MAX_FILE_SIZE < bytes.length))
    ∧ (fs path = some (List.replicate MAX_FILE_SIZE 65) →
        read_file fs path =
          .ok (String.mk (List.replicate MAX_FILE_SIZE (Char.ofNat 65))))
    ∧ (fs path = some (List.replicate (MAX_FILE_SIZE + 1) 65) →
        read_file fs path =
          .error "File too large (10MB). Maximum is 10MB.") := by
  refine ⟨?_, ?_, ?_, ?_, ?_⟩
  · intro h
    simp only [read_file, h]
  · intro h
    rcases read_error_cases h with ⟨hfs, _⟩ | ⟨bytes, _, _, he⟩
    · exact hfs
    · exfalso
      have hne : tooLargeMsg bytes.length ≠ "File does not exist" := by
        intro hcontra
        have hf := tooLargeMsg_not_notfound bytes.length
        rw [hcontra, notfound_contains] at hf
        cases hf
      exact hne he.symm
  · intro bytes hfs
    constructor
    · intro h
      by_contra hlen
      rcases read_ok_of_le hfs (by omega) with ⟨s, hs⟩
      rw [h] at hs
      cases hs
    · intro hlen
      simp only [read_file, hfs, if_pos hlen]
  · intro hfs
    simp only [read_file, hfs, List.length_replicate, lt_irrefl, if_neg,
      utf8Decode_replicate_ascii MAX_FILE_SIZE 65 (by norm_num),
      List.map_replicate, if_false]
  · intro hfs
    have hmsg : tooLargeMsg (MAX_FILE_SIZE + 1) =
        "File too large (10MB). Maximum is 10MB." := by
      rfl
    simp only [read_file, hfs, List.length_replicate, hmsg,
      if_pos (by omega : MAX_FILE_SIZE < MAX_FILE_SIZE + 1)]

/-- Witness for C6: a missing file reports not-found; a file one byte over
the limit reports the too-large message with its size shown as 10 MiB. -/
theorem C6_read_size_limits_witness :
    read_file (fun _ => none) "/tmp/gone.md" = .error "File does not exist"
    ∧ read_file (fun _ => some (List.replicate (MAX_FILE_SIZE + 1) 65)) "/big.md"
        = .error "File too large (10MB). Maximum is 10MB." :=
  ⟨(C6_read_size_limits (fun _ => none) "/tmp/gone.md").1 rfl,
   (C6_read_size_limits (fun _ => some (List.replicate (MAX_FILE_SIZE + 1) 65))
      "/big.md").2.2.2.2 rfl⟩

/-! ## C4 -/

/-- C4: when a read fails, `open_file` returns the error and leaves the
state exactly unchanged; `open_recent_file` returns the error and, when the
failure is that the file does not exist, removes the stale path from the
recent-files list and hands the updated settings to persistence, touching
nothing else; on any other failure (the only other read error is the
too-large one) it leaves the state exactly unchanged. -/
theorem C4_open_failure (fs : String → Option (List Nat)) (path : String)
    (st : AppState) (e : String) (h : read_file fs path = .error e) :
    open_file fs (some path) st = (st, .err e)
    ∧ (fs path = none →
        e = "File does not exist"
        ∧ open_recent_file fs path st =
            ({ st with
                settings := { st.settings with
                  recent_files :=
                    st.settings.recent_files.filter (fun p => p != path) },
                persisted := { st.settings with
                  recent_files :=
                    st.settings.recent_files.filter (fun p => p != path) } },
             CmdResult.err e))
    ∧ (∀ bytes, fs path = some bytes →
        open_recent_file fs path st = (st, CmdResult.err e)) := by
  refine ⟨?_, ?_, ?_⟩
  · simp only [open_file, h]
  · intro hfs
    have he : e = "File does not exist" := by
      simp only [read_file, hfs] at h
      cases h; rfl
    subst he
    refine ⟨rfl, ?_⟩
    simp only [open_recent_file, h, notfound_contains, if_pos]
  · intro bytes hfs
    have he : e = tooLargeMsg bytes.length := by
      rcases read_error_cases h with ⟨hnone, _⟩ | ⟨bytes', hsome, _, he⟩
      · rw [hnone] at hfs; cases hfs
      · rw [hfs] at hsome
        cases hsome
        exact he
    subst he
    simp only [open_recent_file, h, tooLargeMsg_not_notfound bytes.length,
      Bool.false_eq_true, if_neg, if_false]

/-- Witness for C4: opening the stale recent entry `"/tmp/gone.md"` on a
filesystem without it reports the not-found error and drops the entry from
the recent-files list handed to persistence. -/
theorem C4_open_failure_witness :
    (open_recent_file (fun _ => none) "/tmp/gone.md"
        { settings := { Settings.default with recent_files := ["/tmp/gone.md"] },
          current_file := none, modified := false, startup_file := none,
          persisted := { Settings.default with recent_files := ["/tmp/gone.md"] } }) =
      ({ settings := Settings.default, current_file := none, modified := false,
         startup_file := none, persisted := Settings.default },
       CmdResult.err "File does not exist") := by
  have h := (C4_open_failure (fun _ => none) "/tmp/gone.md"
    { settings := { Settings.default with recent_files := ["/tmp/gone.md"] },
      current_file := none, modified := false, startup_file := none,
      persisted := { Settings.default with recent_files := ["/tmp/gone.md"] } }
    "File does not exist" rfl).2.1 rfl
  rw [h.2]
  decide
